import Mathlib

/-!
Verification development for the job-orchestration core of the
`ai_diffusion` plugin (file `src/ai_diffusion/model.py`).

The Python classes `State`, `JobKind`, `Job`, `JobQueue` and the event
handler `Model.handle_message` are embedded shallowly below.  Python
objects have reference identity (the source compares jobs with `!=`,
which falls back to object identity for `Job`); the embedding gives every
job a numeric identity token `ref`, freshly allocated by the queue, and
all mutations of a job object are expressed as updates of the entry with
that token.  Machine floats in the source only hold exact MB quantities
obtained by `size / 1024**2`; they are modelled as rationals.  Qt signal
emissions (`count_changed`, `job_finished`, `selection_changed`) are UI
notifications with no effect on the modelled state and are omitted.
Python exceptions (`IndexError` from `deque.__getitem__`, `ValueError`
from `deque.remove`, `AssertionError` from `assert`) are modelled with
`Except String`.
-/

namespace AiDiffusion

/-- Modelled from the spec: `ImageCollection` lives in `image.py`, which is
not part of the sources; the spec describes a result as "an ordered
sequence of produced images" with an approximate byte footprint `size`.
Each image is represented by its byte size; `size` is the total. -/
structure ImageCollection where
  images : List Nat
deriving DecidableEq, Repr

/-- Modelled from the spec: total byte footprint of the collection. -/
def ImageCollection.size (c : ImageCollection) : Nat := c.images.sum

/-- `class State(Flag)` of `model.py`: job lifecycle states. -/
inductive State where
  | queued | executing | finished | cancelled
deriving DecidableEq, Repr

/-- `class JobKind(Enum)` of `model.py`. -/
inductive JobKind where
  | diffusion | control_layer | upscaling | live_preview
deriving DecidableEq, Repr

/-- `Bounds` of `image.py` as used here: a rectangle. -/
structure Bounds where
  x : Int
  y : Int
  width : Int
  height : Int
deriving DecidableEq, Repr

/-- `class Job` of `model.py`.  `ref` is the object-identity token added
by the embedding (Python compares job objects by identity); `control` is
the optional reference to the originating `ControlLayer` (an external
object, represented opaquely).  The `timestamp` field (wall-clock time,
never read by the modelled code) is omitted. -/
structure Job where
  ref : Nat
  id : Option String
  kind : JobKind
  state : State
  prompt : String
  bounds : Bounds
  control : Option Unit
  _results : ImageCollection
deriving DecidableEq, Repr

/-- `JobQueue.Item`: a (job id, image index) selection. -/
structure Item where
  job : String
  image : Nat
deriving DecidableEq, Repr

/-- `class JobQueue` of `model.py`.  `entries` is the deque (head =
oldest); `_memory_usage` is in MB; `nextRef` is the embedding's fresh
object-identity counter. -/
structure JobQueue where
  entries : List Job
  _selection : Option Item
  _memory_usage : ℚ
  nextRef : Nat
deriving DecidableEq, Repr

/-- `JobQueue.__init__`: empty deque, no selection, zero memory usage. -/
def JobQueue.empty : JobQueue := ⟨[], none, 0, 0⟩

/-- `Job.__init__` as called from `JobQueue.add`: state `queued`, empty
result collection, no control reference. -/
def mkJob (r : Nat) (id : Option String) (kind : JobKind) (prompt : String)
    (bounds : Bounds) : Job :=
  ⟨r, id, kind, State.queued, prompt, bounds, none, ⟨[]⟩⟩

/-- `JobQueue.add`: creates a *diffusion* job and appends it
(`JobQueue._add`). -/
def JobQueue.add (q : JobQueue) (id : String) (prompt : String)
    (bounds : Bounds) : JobQueue :=
  { q with
    entries := q.entries ++ [mkJob q.nextRef (some id) JobKind.diffusion prompt bounds]
    nextRef := q.nextRef + 1 }

/-- Removes the first entry whose identity token is `r`
(`deque.remove` removes the first occurrence of the object). -/
def removeFirst (r : Nat) : List Job → Option (List Job)
  | [] => none
  | j :: rest =>
    if j.ref = r then some rest else (removeFirst r rest).map (j :: ·)

/-- `JobQueue.remove`: `deque.remove` raises `ValueError` when the job is
absent; memory usage is NOT adjusted by the source. -/
def JobQueue.remove (q : JobQueue) (r : Nat) : Except String JobQueue :=
  match removeFirst r q.entries with
  | none => .error "ValueError"
  | some l => .ok { q with entries := l }

/-- `JobQueue.find`: first job whose `id` equals the given string
(`None == id` is false in Python, matching `j.id = some id`). -/
def JobQueue.find (q : JobQueue) (id : String) : Option Job :=
  q.entries.find? (fun j => j.id = some id)

/-- The loop of `JobQueue.prune`:
`while self._memory_usage > settings.history_size and self._entries[0] != keep:`
pops the oldest entry and subtracts its result size in MB.  The conjuncts
are evaluated left to right: when over budget with an empty deque,
`self._entries[0]` raises `IndexError`.  `budget` stands for
`settings.history_size` (modelled from the spec: the settings module is
external; the spec calls it the "history size budget in MB"). -/
def pruneGo (budget : ℚ) (keep : Nat) :
    List Job → ℚ → Except String (List Job × ℚ)
  | [], mem => if budget < mem then .error "IndexError" else .ok ([], mem)
  | j :: rest, mem =>
    if budget < mem then
      if j.ref = keep then .ok (j :: rest, mem)
      else pruneGo budget keep rest (mem - (j._results.size : ℚ) / 1048576)
    else
      .ok (j :: rest, mem)

/-- `JobQueue.prune`. -/
def JobQueue.prune (budget : ℚ) (q : JobQueue) (keep : Nat) :
    Except String JobQueue :=
  match pruneGo budget keep q.entries q._memory_usage with
  | .ok (l, m) => .ok { q with entries := l, _memory_usage := m }
  | .error e => .error e

/-- Mutation `job._results = results` seen through the queue: update the
entry carrying the identity token. -/
def updResults (r : Nat) (results : ImageCollection) (j : Job) : Job :=
  if j.ref = r then { j with _results := results } else j

/-- `JobQueue.set_results`: attach results to the job object, then, for
diffusion jobs, add the result size in MB to the accumulator and prune,
protecting this job.  The source receives the job object itself; the
embedding requires it to be present in the queue (every caller in
`model.py` obtained it from `find`). -/
def JobQueue.set_results (budget : ℚ) (q : JobQueue) (r : Nat)
    (results : ImageCollection) : Except String JobQueue :=
  match q.entries.find? (fun j => j.ref = r) with
  | none => .error "job not in queue"
  | some j =>
    if j.kind = JobKind.diffusion then
      match pruneGo budget r (q.entries.map (updResults r results))
          (q._memory_usage + (results.size : ℚ) / 1048576) with
      | .ok (l, m) => .ok { q with entries := l, _memory_usage := m }
      | .error e => .error e
    else
      .ok { q with entries := q.entries.map (updResults r results) }

/-- Mutation `job.state = st` seen through the queue. -/
def updState (r : Nat) (st : State) (j : Job) : Job :=
  if j.ref = r then { j with state := st } else j

/-- Assignment of a job object's state, as done by
`handle_message` for `interrupted`/`error` events. -/
def JobQueue.set_state (q : JobQueue) (r : Nat) (st : State) : JobQueue :=
  { q with entries := q.entries.map (updState r st) }

/-- `JobQueue.notify_started`: `job.state = State.executing`. -/
def JobQueue.notify_started (q : JobQueue) (r : Nat) : JobQueue :=
  q.set_state r State.executing

/-- `JobQueue.notify_finished`: `job.state = State.finished`. -/
def JobQueue.notify_finished (q : JobQueue) (r : Nat) : JobQueue :=
  q.set_state r State.finished

/-- `JobQueue.select`: store the (job id, index) selection. -/
def JobQueue.select (q : JobQueue) (id : String) (idx : Nat) : JobQueue :=
  { q with _selection := some ⟨id, idx⟩ }

/-! ### Sequences of queue operations

The spec quantifies over "sequences of `add`/`remove`/`set_results`
calls"; `QOp` is that call language and `execOps` runs a sequence,
propagating the first Python exception. -/

inductive QOp where
  | add (id prompt : String) (bounds : Bounds)
  | remove (r : Nat)
  | set_results (r : Nat) (results : ImageCollection)
deriving DecidableEq, Repr

def applyOp (budget : ℚ) (q : JobQueue) : QOp → Except String JobQueue
  | .add id prompt bounds => .ok (q.add id prompt bounds)
  | .remove r => q.remove r
  | .set_results r results => q.set_results budget r results

def execOps (budget : ℚ) (q : JobQueue) : List QOp → Except String JobQueue
  | [] => .ok q
  | op :: rest =>
    match applyOp budget q op with
    | .ok q' => execOps budget q' rest
    | .error e => .error e

/-- MB contribution of one job to the accumulator invariant: only
diffusion jobs are counted by `set_results`. -/
def jobContribution (j : Job) : ℚ :=
  if j.kind = JobKind.diffusion then (j._results.size : ℚ) / 1048576 else 0

/-- Sum of MB contributions of the diffusion jobs in a list. -/
def diffSum (l : List Job) : ℚ := (l.map jobContribution).sum

/-- `set_results` / `remove` applied to a job that currently contributes
nothing to the accumulator (its attached result set has size 0). -/
def noCountedResults (q : JobQueue) (r : Nat) : Bool :=
  q.entries.all fun j => !(j.ref == r) || (j._results.size == 0)

def opSafeB (q : JobQueue) : QOp → Bool
  | .add _ _ _ => true
  | .remove r => noCountedResults q r
  | .set_results r _ => noCountedResults q r

/-- A sequence of operations is valid when every step succeeds and every
`remove`/`set_results` targets a job whose current result set is empty
(the pattern of every call site in `model.py`). -/
def validOps (budget : ℚ) (q : JobQueue) : List QOp → Bool
  | [] => true
  | op :: rest =>
    opSafeB q op &&
      (match applyOp budget q op with
       | .ok q' => validOps budget q' rest
       | .error _ => false)

/-- The queue invariant carried through valid operation sequences:
all entries are diffusion jobs (the `add` of the claim creates only
diffusion jobs), identity tokens are distinct and below the fresh
counter, and the accumulator equals the diffusion result sum. -/
def QueueInv (q : JobQueue) : Prop :=
  (∀ j ∈ q.entries, j.kind = JobKind.diffusion) ∧
  (q.entries.map Job.ref).Nodup ∧
  (∀ j ∈ q.entries, j.ref < q.nextRef) ∧
  q._memory_usage = diffSum q.entries

/-- Spec §3 invariant on one queue: every job's result sequence is empty
unless its state is `finished`. -/
def ResultsInv (q : JobQueue) : Prop :=
  ∀ j ∈ q.entries, j._results.images = [] ∨ j.state = State.finished

/-! ### Generation dispatch (`Model.generate` / `Model._generate`) -/

/-- The four request constructors of `workflow` chosen by
`Model._generate` (the payloads themselves are external). -/
inductive RequestKind where
  | generate | refine | inpaint | refine_region
deriving DecidableEq, Repr

/-- `Model.generate`, lines 367-368: a reference image of the current
document is captured iff a selection mask exists or strength < 1. -/
def generateImage (mask : Bool) (strength : ℚ) : Bool :=
  mask || decide (strength < 1)

/-- The branch cascade of `Model._generate` (lines 401-412); a failing
`assert` is modelled as `none`. -/
def dispatchRequest (image mask : Bool) (strength : ℚ) : Option RequestKind :=
  if image = false ∧ mask = false then
    if strength = 1 then some RequestKind.generate else none
  else if mask = false ∧ strength < 1 then
    if image = true then some RequestKind.refine else none
  else if strength = 1 then
    if image = true ∧ mask = true then some RequestKind.inpaint else none
  else
    if image = true ∧ mask = true ∧ strength < 1 then some RequestKind.refine_region
    else none

/-- `generate` composed with `_generate`: the request kind built for a
given mask presence and strength. -/
def generateDispatch (mask : Bool) (strength : ℚ) : Option RequestKind :=
  dispatchRequest (generateImage mask strength) mask strength

/-! ### Orchestrator state and event reconciliation -/

/-- The `Model` state read or written by `handle_message`: the queue, the
progress property, the error property, `live.is_active`, the preview
layer reference (external node, opaque) and the cached live result. -/
structure ModelState where
  jobs : JobQueue
  progress : ℚ
  error : String
  live_is_active : Bool
  _layer : Option Unit
  _live_result : Option Nat
deriving DecidableEq, Repr

/-- Modelled from the spec: `ClientEvent` lives in `client.py`, not in
the sources; §4.6 lists the event kinds `progress | finished |
interrupted | error`. -/
inductive ClientEvent where
  | progress | finished | interrupted | error
deriving DecidableEq, Repr

/-- Modelled from the spec: `ClientMessage` lives in `client.py`; §4.6
describes its payload (job id, progress fraction, result images,
structured extra result data, error text).  An absent/empty image payload
(`if message.images:` false in Python) is the empty collection. -/
structure ClientMessage where
  event : ClientEvent
  job_id : String
  progress : ℚ
  images : ImageCollection
  result : Option Unit
  error : String
deriving DecidableEq, Repr

/-- Python truthiness of `job.id` (`None` and `""` are falsy). -/
def idTruthy : Option String → Bool
  | none => false
  | some s => !s.isEmpty

/-- Kind-specific side effect of the `finished` branch of
`handle_message`, applied to the job object after results were attached:
`control_layer` asserts the control reference and inserts a document
layer (external); `upscaling` asserts a nonempty result, drops the
preview layer reference and inserts a layer (external); `live_preview`
caches the first result image.  Returns the new preview-layer reference
and live-result cache. -/
def finishEffect (layer : Option Unit) (live : Option Nat) (job1 : Job) :
    Except String (Option Unit × Option Nat) :=
  match job1.kind with
  | JobKind.control_layer =>
      if job1.control = none then .error "AssertionError" else .ok (layer, live)
  | JobKind.upscaling =>
      if job1._results.images = [] then .error "AssertionError" else .ok (none, live)
  | JobKind.live_preview =>
      .ok (layer, if job1._results.images.isEmpty then live
                  else job1._results.images.head?)
  | JobKind.diffusion => .ok (layer, live)

/-- `Model.handle_message` (lines 509-539).  Signal emissions and
document mutations are external; `budget` is `settings.history_size`. -/
def handle_message (budget : ℚ) (s : ModelState) (m : ClientMessage) :
    Except String ModelState :=
  match s.jobs.find m.job_id with
  | none => .ok s
  | some job =>
    match m.event with
    | ClientEvent.progress =>
        .ok { s with jobs := s.jobs.notify_started job.ref, progress := m.progress }
    | ClientEvent.interrupted =>
        .ok { s with jobs := s.jobs.set_state job.ref State.cancelled, progress := 0 }
    | ClientEvent.error =>
        .ok { s with jobs := s.jobs.set_state job.ref State.cancelled,
                     error := "Server execution error: " ++ m.error,
                     live_is_active := false }
    | ClientEvent.finished =>
      match (if m.images.images = [] then Except.ok s.jobs
             else s.jobs.set_results budget job.ref m.images) with
      | .error e => .error e
      | .ok q1 =>
        match finishEffect s._layer s._live_result
            (if m.images.images = [] then job
             else { job with _results := m.images }) with
        | .error e => .error e
        | .ok (layer1, live1) =>
          if job.kind ≠ JobKind.diffusion then
            match (q1.notify_finished job.ref).remove job.ref with
            | .error e => .error e
            | .ok q3 =>
                .ok { s with jobs := q3, progress := 1,
                             _layer := layer1, _live_result := live1 }
          else if layer1 = none ∧ idTruthy job.id then
            .ok { s with jobs := (q1.notify_finished job.ref).select (job.id.getD "") 0,
                         progress := 1, _layer := layer1, _live_result := live1 }
          else
            .ok { s with jobs := q1.notify_finished job.ref,
                         progress := 1, _layer := layer1, _live_result := live1 }

/-! ### Concrete states for the scenario claims -/

/-- A fixed bounds rectangle used by the concrete scenarios. -/
def b0 : Bounds := ⟨0, 0, 512, 512⟩

/-- 50 MB and 10 MB in bytes. -/
def mb50 : Nat := 52428800
def mb10 : Nat := 10485760

/- C1: add a diffusion job, attach a 50MB result, remove the job. -/
def c1ops : List QOp :=
  [QOp.add "j1" "p1" b0, QOp.set_results 0 ⟨[mb50]⟩, QOp.remove 0]
def c1qEnd : JobQueue := ⟨[], none, 50, 1⟩
def c1wops : List QOp := [QOp.add "j1" "p1" b0, QOp.set_results 0 ⟨[mb50]⟩]
def c1wq : JobQueue :=
  ⟨[⟨0, some "j1", JobKind.diffusion, State.queued, "p1", b0, none, ⟨[mb50]⟩⟩],
   none, 50, 1⟩

/- C2: the protected job is the oldest of two entries while over budget. -/
def c2jobKeep : Job :=
  ⟨0, some "k", JobKind.diffusion, State.finished, "p", b0, none, ⟨[mb50]⟩⟩
def c2jobOther : Job :=
  ⟨1, some "o", JobKind.diffusion, State.queued, "q", b0, none, ⟨[]⟩⟩
def c2q : JobQueue := ⟨[c2jobKeep, c2jobOther], none, 50, 2⟩
def c2wq : JobQueue :=
  ⟨[⟨0, some "a", JobKind.diffusion, State.queued, "p", b0, none, ⟨[]⟩⟩], none, 0, 1⟩

/- C3: budget 40MB; J1 gets a 50MB result, then J2 a 10MB result. -/
def c3job1 : Job :=
  ⟨0, some "j1", JobKind.diffusion, State.queued, "p1", b0, none, ⟨[mb50]⟩⟩
def c3job2 : Job :=
  ⟨1, some "j2", JobKind.diffusion, State.queued, "p2", b0, none, ⟨[mb10]⟩⟩
def c3q1 : JobQueue := ⟨[c3job1], none, 50, 1⟩
def c3q2 : JobQueue := ⟨[c3job2], none, 10, 2⟩
def c3ops1 : List QOp := [QOp.add "j1" "p1" b0, QOp.set_results 0 ⟨[mb50]⟩]
def c3ops2 : List QOp := [QOp.add "j2" "p2" b0, QOp.set_results 1 ⟨[mb10]⟩]

/- C5: an executing diffusion job receives results via `set_results`. -/
def c5job : Job :=
  ⟨0, some "a", JobKind.diffusion, State.executing, "p", b0, none, ⟨[]⟩⟩
def c5q : JobQueue := ⟨[c5job], none, 0, 1⟩
def c5qEnd : JobQueue :=
  ⟨[⟨0, some "a", JobKind.diffusion, State.executing, "p", b0, none, ⟨[mb50]⟩⟩],
   none, 50, 1⟩
def c5ws : ModelState := ⟨c5q, 0, "", false, none, none⟩
def c5wm : ClientMessage := ⟨ClientEvent.finished, "a", 0, ⟨[mb50]⟩, none, ""⟩
def c5ws' : ModelState :=
  ⟨⟨[⟨0, some "a", JobKind.diffusion, State.finished, "p", b0, none, ⟨[mb50]⟩⟩],
    some ⟨"a", 0⟩, 50, 1⟩, 1, "", false, none, none⟩

/- C6: a message whose job id matches nothing. -/
def c6ws : ModelState := ⟨JobQueue.empty, 0, "", false, none, none⟩
def c6wm : ClientMessage := ⟨ClientEvent.progress, "zz", 5, ⟨[]⟩, none, ""⟩

/- C7: an interrupted event for an executing job; a prior error message
is present and must survive. -/
def c7job : Job :=
  ⟨0, some "a", JobKind.diffusion, State.executing, "p", b0, none, ⟨[]⟩⟩
def c7ws : ModelState := ⟨⟨[c7job], none, 0, 1⟩, 1, "previous error", true, none, none⟩
def c7wm : ClientMessage := ⟨ClientEvent.interrupted, "a", 0, ⟨[]⟩, none, ""⟩

/- C9: add, attach 50MB results, remove; queue empty but accumulator 50. -/
def c9ops : List QOp :=
  [QOp.add "j1" "p1" b0, QOp.set_results 0 ⟨[mb50]⟩, QOp.remove 0]
def c9qEnd : JobQueue := ⟨[], none, 50, 1⟩

/- C10: a single over-budget entry that is the protected job; and a
witness entry that is neither diffusion-kind nor finished. -/
def c10job : Job :=
  ⟨0, some "old", JobKind.diffusion, State.finished, "p", b0, none, ⟨[mb50]⟩⟩
def c10q : JobQueue := ⟨[c10job], none, 50, 1⟩
def c10wjob : Job :=
  ⟨0, some "w", JobKind.control_layer, State.executing, "p", b0, none, ⟨[1048576]⟩⟩

/-! ## Theorems -/

/-- C3: with a 40MB budget, adding diffusion job J1 and attaching a 50MB
result leaves J1 in the queue with accumulator 50MB (over budget but
protected); adding J2 and attaching a 10MB result evicts J1 and leaves
accumulator 10MB with J2 the only remaining job — protection applies only
to the job of the current `set_results` call. -/
theorem c3_scenario :
    execOps 40 JobQueue.empty c3ops1 = .ok c3q1 ∧
    c3q1.entries = [c3job1] ∧ c3q1._memory_usage = 50 ∧
    execOps 40 c3q1 c3ops2 = .ok c3q2 ∧
    c3q2.entries = [c3job2] ∧ c3q2._memory_usage = 10 := by
  refine ⟨?_, rfl, rfl, ?_, rfl, rfl⟩ <;>
    norm_num [execOps, applyOp, JobQueue.empty, JobQueue.add, JobQueue.set_results,
      pruneGo, updResults, mkJob, ImageCollection.size, c3q1, c3q2, c3job1, c3job2,
      c3ops1, c3ops2, b0, mb50, mb10]

/-- C9: after add, set_results(50MB) and remove with a 40MB budget, the
queue is empty while the accumulator (50) still exceeds the budget;
`prune` on this reachable state fails with an IndexError reading the
oldest entry instead of acting as a no-op. -/
theorem c9_prune_index_error :
    execOps 40 JobQueue.empty c9ops = .ok c9qEnd ∧
    c9qEnd.entries = [] ∧ (40 : ℚ) < c9qEnd._memory_usage ∧
    JobQueue.prune 40 c9qEnd 0 = .error "IndexError" := by
  refine ⟨?_, rfl, by norm_num [c9qEnd], ?_⟩ <;>
    norm_num [execOps, applyOp, JobQueue.empty, JobQueue.add, JobQueue.set_results,
      JobQueue.remove, JobQueue.prune, removeFirst, pruneGo, updResults, mkJob,
      ImageCollection.size, c9ops, c9qEnd, b0, mb50]

/-- C1 (counterexample): running add, set_results(50MB), remove leaves
the accumulator at 50 while no diffusion job is present (the sum is 0):
`remove` does not subtract the removed job's result size, so the claimed
invariant fails for this sequence. -/
theorem c1_counterexample :
    execOps 100 JobQueue.empty c1ops = .ok c1qEnd ∧
    c1qEnd._memory_usage ≠ diffSum c1qEnd.entries := by
  constructor
  · norm_num [execOps, applyOp, JobQueue.empty, JobQueue.add, JobQueue.set_results,
      JobQueue.remove, removeFirst, pruneGo, updResults, mkJob,
      ImageCollection.size, c1ops, c1qEnd, b0, mb50]
  · norm_num [c1qEnd, diffSum]

/-- C2 (counterexample): with budget 40, accumulator 50 and the protected
job the oldest of two entries, `prune(keep)` returns immediately: `keep`
is not removed, but afterwards the accumulator still exceeds the budget
and `keep` is not the only job remaining, refuting the claimed
disjunction. -/
theorem c2_counterexample :
    JobQueue.prune 40 c2q 0 = .ok c2q ∧ c2jobKeep.ref = 0 ∧
    c2q.entries = [c2jobKeep, c2jobOther] ∧
    ¬ (c2q._memory_usage ≤ 40 ∨ c2q.entries = [c2jobKeep]) := by
  refine ⟨?_, rfl, rfl, ?_⟩
  · norm_num [JobQueue.prune, pruneGo, c2q, c2jobKeep]
  · norm_num [c2q, c2jobKeep, c2jobOther]

/-- C10 (counterexample): a queue whose accumulator (50) exceeds the
budget (40) but whose oldest entry is the protected job: `prune` evicts
nothing, refuting "the oldest entry is evicted whenever the accumulator
exceeds the budget". -/
theorem c10_counterexample :
    (40 : ℚ) < c10q._memory_usage ∧
    JobQueue.prune 40 c10q 0 = .ok c10q ∧
    c10q.entries ≠ [] := by
  refine ⟨by norm_num [c10q], ?_, by simp [c10q]⟩
  norm_num [JobQueue.prune, pruneGo, c10q, c10job]

/-- C8: `find(id)` returns the not-found sentinel `none` whenever no job
in the queue carries that id; it is a total function (the source's
generator expression with a `None` default cannot raise). -/
theorem c8_find_total (q : JobQueue) (id : String)
    (h : ∀ j ∈ q.entries, j.id ≠ some id) : q.find id = none := by
  unfold JobQueue.find
  rw [List.find?_eq_none]
  intro j hj
  simpa using h j hj

theorem c8_find_total_witness : JobQueue.empty.find "x" = none :=
  c8_find_total JobQueue.empty "x" (by simp [JobQueue.empty])

/-- C6: a message whose job id matches no job in the queue is logged and
ignored: `handle_message` returns without an exception and without any
change to jobs, queue, accumulator, progress or error. -/
theorem c6_unknown_id (budget : ℚ) (s : ModelState) (m : ClientMessage)
    (h : s.jobs.find m.job_id = none) :
    handle_message budget s m = .ok s := by
  unfold handle_message
  rw [h]

theorem c6_unknown_id_witness : handle_message 1024 c6ws c6wm = .ok c6ws :=
  c6_unknown_id 1024 c6ws c6wm (by simp [c6ws, c6wm, JobQueue.empty, JobQueue.find])

/-- C4: the request table of `Model._generate`: no mask & strength 1 →
plain generate; mask & strength 1 → inpaint; no mask & strength < 1 →
refine; mask & strength < 1 → refine restricted to the mask region; and a
reference image is captured exactly when a mask is present or
strength < 1. -/
theorem c4_dispatch_table (s : ℚ) (hs : s < 1) :
    generateDispatch false 1 = some RequestKind.generate ∧
    generateDispatch true 1 = some RequestKind.inpaint ∧
    generateDispatch false s = some RequestKind.refine ∧
    generateDispatch true s = some RequestKind.refine_region ∧
    (∀ mask strength, generateImage mask strength = (mask || decide (strength < 1))) := by
  have hne : s ≠ 1 := ne_of_lt hs
  refine ⟨?_, ?_, ?_, ?_, fun _ _ => rfl⟩
  · norm_num [generateDispatch, generateImage, dispatchRequest]
  · norm_num [generateDispatch, generateImage, dispatchRequest]
  · simp [generateDispatch, generateImage, dispatchRequest, hs, hne]
  · simp [generateDispatch, generateImage, dispatchRequest, hs, hne]

theorem c4_dispatch_table_witness :
    generateDispatch false 1 = some RequestKind.generate ∧
    generateDispatch true 1 = some RequestKind.inpaint ∧
    generateDispatch false (1/2) = some RequestKind.refine ∧
    generateDispatch true (1/2) = some RequestKind.refine_region ∧
    (∀ mask strength, generateImage mask strength = (mask || decide (strength < 1))) :=
  c4_dispatch_table (1/2) (by norm_num)

/-! ### Step lemmas for the pruning loop -/

theorem pruneGo_stop (budget : ℚ) (keep : Nat) (j : Job) (rest : List Job)
    (mem : ℚ) (h : ¬ budget < mem) :
    pruneGo budget keep (j :: rest) mem = .ok (j :: rest, mem) := by
  simp [pruneGo, h]

theorem pruneGo_keepHead (budget : ℚ) (keep : Nat) (j : Job) (rest : List Job)
    (mem : ℚ) (h : budget < mem) (hj : j.ref = keep) :
    pruneGo budget keep (j :: rest) mem = .ok (j :: rest, mem) := by
  simp [pruneGo, h, hj]

theorem pruneGo_step (budget : ℚ) (keep : Nat) (j : Job) (rest : List Job)
    (mem : ℚ) (h : budget < mem) (hj : ¬ j.ref = keep) :
    pruneGo budget keep (j :: rest) mem =
      pruneGo budget keep rest (mem - (j._results.size : ℚ) / 1048576) := by
  simp [pruneGo, h, hj]

/-- The loop never pops the protected job: if `keep` is in the queue, the
loop terminates normally, `keep` is still present afterwards, and on exit
either the accumulator is within budget or `keep` is the oldest entry. -/
theorem pruneGo_keep (budget : ℚ) (keep : Nat) :
    ∀ (l : List Job) (mem : ℚ), keep ∈ l.map Job.ref →
      ∃ l' m', pruneGo budget keep l mem = .ok (l', m') ∧
        keep ∈ l'.map Job.ref ∧
        (m' ≤ budget ∨ (l'.map Job.ref).head? = some keep) := by
  intro l
  induction l with
  | nil => intro mem h; simp at h
  | cons j rest ih =>
    intro mem h
    by_cases hm : budget < mem
    · by_cases hj : j.ref = keep
      · exact ⟨j :: rest, mem, pruneGo_keepHead budget keep j rest mem hm hj, h,
          Or.inr (by simp [hj])⟩
      · have hk : keep ∈ rest.map Job.ref := by
          rw [List.map_cons] at h
          rcases List.mem_cons.1 h with h1 | h2
          · exact absurd h1.symm hj
          · exact h2
        obtain ⟨l', m', heq, hmem, hpost⟩ :=
          ih (mem - (j._results.size : ℚ) / 1048576) hk
        exact ⟨l', m', (pruneGo_step budget keep j rest mem hm hj).trans heq,
          hmem, hpost⟩
    · exact ⟨j :: rest, mem, pruneGo_stop budget keep j rest mem hm, h,
        Or.inl (le_of_not_lt hm)⟩

/-- C2 (amended): for every queue state in which the protected job is
present, `prune(keep)` never removes `keep` and terminates with a state
in which either the accumulator is at most the budget or `keep` is the
*oldest* (front) job of the queue — not necessarily the only one. -/
theorem c2_prune_protects (budget : ℚ) (q : JobQueue) (keep : Nat)
    (hkeep : keep ∈ q.entries.map Job.ref) :
    ∃ l m,
      JobQueue.prune budget q keep = .ok { q with entries := l, _memory_usage := m } ∧
      keep ∈ l.map Job.ref ∧
      (m ≤ budget ∨ (l.map Job.ref).head? = some keep) := by
  obtain ⟨l', m', heq, hmem, hpost⟩ :=
    pruneGo_keep budget keep q.entries q._memory_usage hkeep
  exact ⟨l', m', by unfold JobQueue.prune; rw [heq], hmem, hpost⟩

theorem c2_prune_protects_witness :
    ∃ l m,
      JobQueue.prune 100 c2wq 0 = .ok { c2wq with entries := l, _memory_usage := m } ∧
      0 ∈ l.map Job.ref ∧
      (m ≤ 100 ∨ (l.map Job.ref).head? = some 0) :=
  c2_prune_protects 100 c2wq 0 (by simp [c2wq])

/-- C10 (amended): when the accumulator exceeds the budget and the oldest
entry is not the protected job, `prune` evicts the oldest entry first —
whatever its lifecycle state (queued, executing, ...) and kind — and
subtracts its current result-set size (possibly zero) from the
accumulator; victim selection is purely by queue position. -/
theorem c10_evicts_oldest (budget : ℚ) (keep : Nat) (j : Job) (rest : List Job)
    (sel : Option Item) (mem : ℚ) (nr : Nat)
    (hover : budget < mem) (hj : j.ref ≠ keep) :
    JobQueue.prune budget ⟨j :: rest, sel, mem, nr⟩ keep =
      JobQueue.prune budget ⟨rest, sel, mem - (j._results.size : ℚ) / 1048576, nr⟩ keep := by
  unfold JobQueue.prune
  rw [pruneGo_step budget keep j rest mem hover hj]

theorem c10_evicts_oldest_witness :
    JobQueue.prune 0 ⟨[c10wjob], none, 5, 1⟩ 1 =
      JobQueue.prune 0 ⟨[], none, 5 - (c10wjob._results.size : ℚ) / 1048576, 1⟩ 1 ∧
    c10wjob.kind = JobKind.control_layer ∧ c10wjob.state = State.executing :=
  ⟨c10_evicts_oldest 0 1 c10wjob [] none 5 1 (by norm_num) (by decide), rfl, rfl⟩

/-! ### Job-object updates preserve identity and id -/

theorem updState_id (r : Nat) (st : State) (j : Job) : (updState r st j).id = j.id := by
  unfold updState; split <;> rfl

theorem find_set_state (q : JobQueue) (r : Nat) (st : State) (i : String) :
    (q.set_state r st).find i = (q.find i).map (updState r st) := by
  unfold JobQueue.set_state JobQueue.find
  rw [List.find?_map]
  have hp : ((fun j => decide (j.id = some i)) ∘ updState r st) =
      (fun j => decide (j.id = some i)) := by
    funext j
    simp [Function.comp, updState_id]
  rw [hp]

/-- C7: an `interrupted` event whose job id matches a job in the queue
sets that job's state to `cancelled`, sets the progress value to 0, and
leaves the error message field unchanged. -/
theorem c7_interrupted (budget : ℚ) (s : ModelState) (m : ClientMessage) (job : Job)
    (hfind : s.jobs.find m.job_id = some job)
    (hev : m.event = ClientEvent.interrupted) :
    ∃ s', handle_message budget s m = .ok s' ∧
      s'.progress = 0 ∧ s'.error = s.error ∧
      s'.jobs.find m.job_id = some { job with state := State.cancelled } := by
  refine ⟨{ s with jobs := s.jobs.set_state job.ref State.cancelled, progress := 0 },
    ?_, rfl, rfl, ?_⟩
  · unfold handle_message
    rw [hfind, hev]
  · show (s.jobs.set_state job.ref State.cancelled).find m.job_id = _
    rw [find_set_state, hfind]
    simp [updState]

theorem c7_interrupted_witness :
    ∃ s', handle_message 1024 c7ws c7wm = .ok s' ∧
      s'.progress = 0 ∧ s'.error = c7ws.error ∧
      s'.jobs.find c7wm.job_id = some { c7job with state := State.cancelled } :=
  c7_interrupted 1024 c7ws c7wm c7job (by decide) rfl

/-! ### Membership tracking through the queue transformations -/

theorem pruneGo_suffix (budget : ℚ) (keep : Nat) :
    ∀ (l : List Job) (mem : ℚ) (l' : List Job) (m' : ℚ),
      pruneGo budget keep l mem = .ok (l', m') → l' <:+ l := by
  intro l
  induction l with
  | nil =>
    intro mem l' m' h
    by_cases hm : budget < mem
    · simp [pruneGo, hm] at h
    · simp [pruneGo, hm] at h
      rw [← h.1]
  | cons j rest ih =>
    intro mem l' m' h
    by_cases hm : budget < mem
    · by_cases hj : j.ref = keep
      · rw [pruneGo_keepHead budget keep j rest mem hm hj] at h
        simp at h
        rw [← h.1]
      · rw [pruneGo_step budget keep j rest mem hm hj] at h
        exact (ih _ _ _ h).trans (List.suffix_cons j rest)
    · rw [pruneGo_stop budget keep j rest mem hm] at h
      simp at h
      rw [← h.1]

theorem pruneGo_mem (budget : ℚ) (keep : Nat) (l : List Job) (mem : ℚ)
    (l' : List Job) (m' : ℚ) (h : pruneGo budget keep l mem = .ok (l', m')) :
    ∀ j ∈ l', j ∈ l :=
  fun _ hj => (pruneGo_suffix budget keep l mem l' m' h).subset hj

theorem removeFirst_sublist (r : Nat) :
    ∀ (l l' : List Job), removeFirst r l = some l' → List.Sublist l' l := by
  intro l
  induction l with
  | nil => intro l' h; simp [removeFirst] at h
  | cons j rest ih =>
    intro l' h
    by_cases hj : j.ref = r
    · simp [removeFirst, hj] at h
      rw [← h]
      exact List.sublist_cons_self j rest
    · simp [removeFirst, hj] at h
      obtain ⟨t, ht, rfl⟩ := h
      exact List.Sublist.cons₂ j (ih t ht)

/-- Every entry after `set_results` is an entry of the original queue
with, at most, its result collection replaced (when it carries the target
identity token). -/
theorem set_results_mem (budget : ℚ) (q : JobQueue) (r : Nat)
    (rs : ImageCollection) (q' : JobQueue)
    (h : q.set_results budget r rs = .ok q') :
    ∀ j' ∈ q'.entries, ∃ e ∈ q.entries, j' = updResults r rs e := by
  unfold JobQueue.set_results at h
  cases hfind : q.entries.find? (fun j => decide (j.ref = r)) with
  | none => rw [hfind] at h; cases h
  | some j =>
    rw [hfind] at h
    simp only [] at h
    by_cases hk : j.kind = JobKind.diffusion
    · rw [if_pos hk] at h
      cases hp : pruneGo budget r (q.entries.map (updResults r rs))
          (q._memory_usage + (rs.size : ℚ) / 1048576) with
      | error e => rw [hp] at h; cases h
      | ok pr =>
        obtain ⟨l, mq⟩ := pr
        rw [hp] at h
        simp only [] at h
        injection h with h
        intro j' hj'
        have hmem : j' ∈ q.entries.map (updResults r rs) := by
          refine pruneGo_mem budget r _ _ l mq hp j' ?_
          rw [← h] at hj'
          exact hj'
        obtain ⟨e, he, hje⟩ := List.mem_map.1 hmem
        exact ⟨e, he, hje.symm⟩
    · rw [if_neg hk] at h
      injection h with h
      intro j' hj'
      rw [← h] at hj'
      obtain ⟨e, he, hje⟩ := List.mem_map.1 hj'
      exact ⟨e, he, hje.symm⟩

theorem updResults_ref (r : Nat) (rs : ImageCollection) (j : Job) :
    (updResults r rs j).ref = j.ref := by
  unfold updResults; split <;> rfl

theorem updResults_of_ne (r : Nat) (rs : ImageCollection) (j : Job)
    (h : ¬ j.ref = r) : updResults r rs j = j := by
  unfold updResults; rw [if_neg h]

theorem updState_of_ne (r : Nat) (st : State) (j : Job)
    (h : ¬ j.ref = r) : updState r st j = j := by
  unfold updState; rw [if_neg h]

/-- C5 (counterexample): `set_results` alone violates the predicate
"results are empty unless the state is finished": attaching a nonempty
result to an executing diffusion job leaves it executing with results
(the finished notification only follows later). -/
theorem c5_counterexample :
    ResultsInv c5q ∧
    JobQueue.set_results 100 c5q 0 ⟨[mb50]⟩ = .ok c5qEnd ∧
    ¬ ResultsInv c5qEnd := by
  refine ⟨by unfold ResultsInv; decide, ?_, by unfold ResultsInv; decide⟩
  norm_num [JobQueue.set_results, c5q, c5qEnd, c5job, pruneGo, updResults,
    ImageCollection.size, mb50]

/-- C5 (amended): the complete handling of a `finished` event preserves
the predicate for every job in the queue: results are attached and the
job is marked finished within the same `handle_message` call, and no
other job's state or results change. -/
theorem c5_finished_preserves_inv (budget : ℚ) (s : ModelState)
    (m : ClientMessage) (s' : ModelState)
    (hev : m.event = ClientEvent.finished) (hinv : ResultsInv s.jobs)
    (hok : handle_message budget s m = .ok s') :
    ResultsInv s'.jobs := by
  unfold handle_message at hok
  cases hfind : s.jobs.find m.job_id with
  | none =>
    rw [hfind] at hok
    injection hok with hok
    rw [← hok]
    exact hinv
  | some job =>
    rw [hfind, hev] at hok
    simp only [] at hok
    cases hq1 : (if m.images.images = [] then Except.ok s.jobs
                 else s.jobs.set_results budget job.ref m.images) with
    | error e => rw [hq1] at hok; cases hok
    | ok q1 =>
      rw [hq1] at hok
      simp only [] at hok
      have hq1mem : ∀ j' ∈ q1.entries, j'.ref = job.ref ∨ j' ∈ s.jobs.entries := by
        by_cases him : m.images.images = []
        · rw [if_pos him] at hq1
          injection hq1 with hq1
          rw [hq1]
          exact fun j' hj' => Or.inr hj'
        · rw [if_neg him] at hq1
          intro j' hj'
          obtain ⟨e, he, hje⟩ := set_results_mem budget s.jobs job.ref m.images q1 hq1 j' hj'
          by_cases her : e.ref = job.ref
          · left
            rw [hje, updResults_ref, her]
          · right
            rw [hje, updResults_of_ne _ _ _ her]
            exact he
      have hq2inv : ResultsInv (q1.notify_finished job.ref) := by
        intro j' hj'
        obtain ⟨e, he, hje⟩ := List.mem_map.1 hj'
        by_cases her : e.ref = job.ref
        · right
          rw [← hje]
          unfold updState
          rw [if_pos her]
        · rw [← hje, updState_of_ne _ _ _ her]
          rcases hq1mem e he with h1 | h2
          · exact absurd h1 her
          · exact hinv e h2
      cases heff : finishEffect s._layer s._live_result
          (if m.images.images = [] then job
           else { job with _results := m.images }) with
      | error e => rw [heff] at hok; cases hok
      | ok p =>
        obtain ⟨layer1, live1⟩ := p
        rw [heff] at hok
        simp only [] at hok
        by_cases hkind : job.kind ≠ JobKind.diffusion
        · rw [if_pos hkind] at hok
          cases hrem : (q1.notify_finished job.ref).remove job.ref with
          | error e => rw [hrem] at hok; cases hok
          | ok q3 =>
            rw [hrem] at hok
            injection hok with hok
            rw [← hok]
            show ResultsInv q3
            unfold JobQueue.remove at hrem
            cases hrf : removeFirst job.ref (q1.notify_finished job.ref).entries with
            | none => rw [hrf] at hrem; cases hrem
            | some l =>
              rw [hrf] at hrem
              injection hrem with hrem
              intro j' hj'
              rw [← hrem] at hj'
              exact hq2inv j'
                ((removeFirst_sublist job.ref _ l hrf).subset hj')
        · rw [if_neg hkind] at hok
          by_cases hsel : layer1 = none ∧ idTruthy job.id
          · rw [if_pos hsel] at hok
            injection hok with hok
            rw [← hok]
            exact hq2inv
          · rw [if_neg hsel] at hok
            injection hok with hok
            rw [← hok]
            exact hq2inv

/-! ### The accumulator invariant along valid operation sequences -/

theorem diffSum_cons (j : Job) (l : List Job) :
    diffSum (j :: l) = jobContribution j + diffSum l := by
  simp [diffSum]

theorem diffSum_append (l1 l2 : List Job) :
    diffSum (l1 ++ l2) = diffSum l1 + diffSum l2 := by
  simp [diffSum]

theorem jobContribution_zero (j : Job) (h : j._results.size = 0) :
    jobContribution j = 0 := by
  unfold jobContribution
  split <;> simp [h]

theorem map_updResults_noop (r : Nat) (rs : ImageCollection) :
    ∀ (l : List Job), (∀ j ∈ l, j.ref ≠ r) → l.map (updResults r rs) = l := by
  intro l h
  induction l with
  | nil => rfl
  | cons j t ih =>
    rw [List.map_cons, updResults_of_ne _ _ _ (h j (List.mem_cons_self j t)),
      ih fun e he => h e (List.mem_cons_of_mem j he)]

/-- Replacing the (empty, size-0) results of the unique entry carrying
token `r` adds exactly the new size to the diffusion sum. -/
theorem diffSum_update (r : Nat) (rs : ImageCollection) :
    ∀ (l : List Job),
      (∀ j ∈ l, j.kind = JobKind.diffusion) →
      (∀ j ∈ l, j.ref = r → j._results.size = 0) →
      (l.map Job.ref).Nodup → r ∈ l.map Job.ref →
      diffSum (l.map (updResults r rs)) = diffSum l + (rs.size : ℚ) / 1048576 := by
  intro l
  induction l with
  | nil => intro _ _ _ hr; simp at hr
  | cons j t ih =>
    intro hdiff hz hnd hr
    rw [List.map_cons] at hnd
    obtain ⟨hhead, htail⟩ := List.nodup_cons.1 hnd
    by_cases hjr : j.ref = r
    · have hnot : ∀ e ∈ t, e.ref ≠ r := by
        intro e he heq
        exact hhead (by rw [hjr, ← heq]; exact List.mem_map_of_mem Job.ref he)
      rw [List.map_cons, map_updResults_noop r rs t hnot, diffSum_cons, diffSum_cons]
      have h1 : jobContribution (updResults r rs j) = (rs.size : ℚ) / 1048576 := by
        unfold updResults jobContribution
        rw [if_pos hjr]
        simp [hdiff j (List.mem_cons_self j t)]
      have h2 : jobContribution j = 0 :=
        jobContribution_zero j (hz j (List.mem_cons_self j t) hjr)
      rw [h1, h2]
      ring
    · have hrt : r ∈ t.map Job.ref := by
        rw [List.map_cons] at hr
        rcases List.mem_cons.1 hr with h1 | h2
        · exact absurd h1.symm hjr
        · exact h2
      rw [List.map_cons, updResults_of_ne _ _ _ hjr, diffSum_cons, diffSum_cons,
        ih (fun e he => hdiff e (List.mem_cons_of_mem j he))
          (fun e he => hz e (List.mem_cons_of_mem j he)) htail hrt]
      ring

/-- The pruning loop keeps the accumulator equal to the diffusion sum of
the remaining entries when all entries are diffusion jobs. -/
theorem pruneGo_acc (budget : ℚ) (keep : Nat) :
    ∀ (l : List Job) (mem : ℚ) (l' : List Job) (m' : ℚ),
      (∀ j ∈ l, j.kind = JobKind.diffusion) → mem = diffSum l →
      pruneGo budget keep l mem = .ok (l', m') → m' = diffSum l' := by
  intro l
  induction l with
  | nil =>
    intro mem l' m' _ hmem h
    by_cases hm : budget < mem
    · simp [pruneGo, hm] at h
    · unfold pruneGo at h
      rw [if_neg hm] at h
      injection h with h
      injection h with h1 h2
      subst h1; subst h2
      exact hmem
  | cons j t ih =>
    intro mem l' m' hdiff hmem h
    by_cases hm : budget < mem
    · by_cases hj : j.ref = keep
      · rw [pruneGo_keepHead budget keep j t mem hm hj] at h
        injection h with h
        injection h with h1 h2
        subst h1; subst h2
        exact hmem
      · rw [pruneGo_step budget keep j t mem hm hj] at h
        refine ih _ _ _ (fun e he => hdiff e (List.mem_cons_of_mem j he)) ?_ h
        have hc : jobContribution j = (j._results.size : ℚ) / 1048576 := by
          unfold jobContribution
          rw [if_pos (hdiff j (List.mem_cons_self j t))]
        rw [hmem, diffSum_cons, hc]
        ring
    · rw [pruneGo_stop budget keep j t mem hm] at h
      injection h with h
      injection h with h1 h2
      subst h1; subst h2
      exact hmem

theorem removeFirst_spec (r : Nat) :
    ∀ (l l' : List Job), removeFirst r l = some l' →
      ∃ l1 jx l2, l = l1 ++ jx :: l2 ∧ l' = l1 ++ l2 ∧ jx.ref = r := by
  intro l
  induction l with
  | nil => intro l' h; simp [removeFirst] at h
  | cons j t ih =>
    intro l' h
    by_cases hj : j.ref = r
    · simp [removeFirst, hj] at h
      exact ⟨[], j, t, rfl, h.symm, hj⟩
    · simp [removeFirst, hj] at h
      obtain ⟨t', ht', rfl⟩ := h
      obtain ⟨l1, jx, l2, heq, heq', hjx⟩ := ih t' ht'
      exact ⟨j :: l1, jx, l2, by rw [heq, List.cons_append],
        by rw [heq', List.cons_append], hjx⟩

theorem noCountedResults_spec (q : JobQueue) (r : Nat)
    (h : noCountedResults q r = true) :
    ∀ j ∈ q.entries, j.ref = r → j._results.size = 0 := by
  intro j hj hr
  have := List.all_eq_true.1 h j hj
  simpa [hr] using this

theorem inv_add (q : JobQueue) (id prompt : String) (bounds : Bounds)
    (h : QueueInv q) : QueueInv (q.add id prompt bounds) := by
  obtain ⟨hdiff, hnd, hbound, hacc⟩ := h
  have hent : (q.add id prompt bounds).entries =
      q.entries ++ [mkJob q.nextRef (some id) JobKind.diffusion prompt bounds] := rfl
  refine ⟨?_, ?_, ?_, ?_⟩
  · intro j hj
    rw [hent] at hj
    rcases List.mem_append.1 hj with hj | hj
    · exact hdiff j hj
    · rw [List.mem_singleton.1 hj]
      rfl
  · rw [hent, List.map_append, List.nodup_append]
    refine ⟨hnd, by simp, ?_⟩
    intro a ha hb
    obtain ⟨j, hj, hja⟩ := List.mem_map.1 ha
    have hb' : a = q.nextRef := by simpa [mkJob] using hb
    have := hbound j hj
    rw [hja, hb'] at this
    exact absurd this (lt_irrefl _)
  · intro j hj
    rw [hent] at hj
    rcases List.mem_append.1 hj with hj | hj
    · exact Nat.lt_succ_of_lt (hbound j hj)
    · rw [List.mem_singleton.1 hj]
      exact Nat.lt_succ_self _
  · show q._memory_usage = diffSum ((q.add id prompt bounds).entries)
    rw [hent, diffSum_append, hacc]
    have hz : diffSum [mkJob q.nextRef (some id) JobKind.diffusion prompt bounds] = 0 := by
      simp [diffSum, jobContribution, mkJob, ImageCollection.size]
    rw [hz]
    ring

theorem inv_remove (q q' : JobQueue) (r : Nat)
    (h : QueueInv q) (hsafe : noCountedResults q r = true)
    (hok : q.remove r = .ok q') : QueueInv q' := by
  obtain ⟨hdiff, hnd, hbound, hacc⟩ := h
  unfold JobQueue.remove at hok
  cases hrf : removeFirst r q.entries with
  | none => rw [hrf] at hok; cases hok
  | some l =>
    rw [hrf] at hok
    injection hok with hok
    have hsub : List.Sublist l q.entries := removeFirst_sublist r q.entries l hrf
    obtain ⟨l1, jx, l2, heq, heq', hjx⟩ := removeFirst_spec r q.entries l hrf
    subst hok
    refine ⟨fun j hj => hdiff j (hsub.subset hj), hnd.sublist (hsub.map Job.ref),
      fun j hj => hbound j (hsub.subset hj), ?_⟩
    show q._memory_usage = diffSum l
    have hjx0 : jobContribution jx = 0 :=
      jobContribution_zero jx
        (noCountedResults_spec q r hsafe jx (by rw [heq]; simp) hjx)
    rw [hacc, heq, heq', diffSum_append, diffSum_append, diffSum_cons, hjx0]
    ring

theorem inv_set_results (budget : ℚ) (q q' : JobQueue) (r : Nat)
    (rs : ImageCollection) (h : QueueInv q)
    (hsafe : noCountedResults q r = true)
    (hok : q.set_results budget r rs = .ok q') : QueueInv q' := by
  obtain ⟨hdiff, hnd, hbound, hacc⟩ := h
  unfold JobQueue.set_results at hok
  cases hfind : q.entries.find? (fun j => decide (j.ref = r)) with
  | none => rw [hfind] at hok; cases hok
  | some j =>
    rw [hfind] at hok
    simp only [] at hok
    have hjmem : j ∈ q.entries := List.mem_of_find?_eq_some hfind
    have hjr : j.ref = r := by simpa using List.find?_some hfind
    rw [if_pos (hdiff j hjmem)] at hok
    cases hp : pruneGo budget r (q.entries.map (updResults r rs))
        (q._memory_usage + (rs.size : ℚ) / 1048576) with
    | error e => rw [hp] at hok; cases hok
    | ok pr =>
      obtain ⟨l, mq⟩ := pr
      rw [hp] at hok
      simp only [] at hok
      injection hok with hok
      have hdiff1 : ∀ e ∈ q.entries.map (updResults r rs),
          e.kind = JobKind.diffusion := by
        intro e he
        obtain ⟨e0, he0, rfl⟩ := List.mem_map.1 he
        have hk : (updResults r rs e0).kind = e0.kind := by
          unfold updResults; split <;> rfl
        rw [hk]
        exact hdiff e0 he0
      have hrefs1 : (q.entries.map (updResults r rs)).map Job.ref =
          q.entries.map Job.ref := by
        rw [List.map_map]
        exact List.map_congr_left fun e _ => updResults_ref r rs e
      have hrmem : r ∈ q.entries.map Job.ref := by
        rw [← hjr]
        exact List.mem_map_of_mem Job.ref hjmem
      have hupd := diffSum_update r rs q.entries hdiff
        (noCountedResults_spec q r hsafe) hnd hrmem
      have hm' : mq = diffSum l := by
        refine pruneGo_acc budget r _ _ l mq hdiff1 ?_ hp
        rw [hupd, hacc]
      subst hok
      refine ⟨fun e he => hdiff1 e (pruneGo_mem budget r _ _ l mq hp e he),
        ?_, ?_, hm'⟩
      · have hsuf := (pruneGo_suffix budget r _ _ l mq hp).sublist.map Job.ref
        rw [hrefs1] at hsuf
        exact hnd.sublist hsuf
      · intro e he
        obtain ⟨e0, he0, rfl⟩ :=
          List.mem_map.1 (pruneGo_mem budget r _ _ l mq hp e he)
        rw [updResults_ref]
        exact hbound e0 he0

theorem inv_applyOp (budget : ℚ) (q q' : JobQueue) (op : QOp)
    (h : QueueInv q) (hsafe : opSafeB q op = true)
    (hok : applyOp budget q op = .ok q') : QueueInv q' := by
  cases op with
  | add id prompt bounds =>
    unfold applyOp at hok
    injection hok with hok
    rw [← hok]
    exact inv_add q id prompt bounds h
  | remove r => exact inv_remove q q' r h hsafe hok
  | set_results r rs => exact inv_set_results budget q q' r rs h hsafe hok

theorem inv_execOps (budget : ℚ) :
    ∀ (ops : List QOp) (q q' : JobQueue), QueueInv q →
      validOps budget q ops = true → execOps budget q ops = .ok q' →
      QueueInv q' := by
  intro ops
  induction ops with
  | nil =>
    intro q q' h _ hok
    unfold execOps at hok
    injection hok with hok
    rw [← hok]
    exact h
  | cons op rest ih =>
    intro q q' h hv hok
    unfold validOps at hv
    unfold execOps at hok
    rw [Bool.and_eq_true] at hv
    obtain ⟨hsafe, hv⟩ := hv
    cases happ : applyOp budget q op with
    | error e =>
      rw [happ] at hok
      simp at hok
    | ok q1 =>
      rw [happ] at hok hv
      exact ih q1 q' (inv_applyOp budget q q1 op h hsafe happ) hv hok

/-- C1 (amended): starting from the empty queue, for every valid sequence
of `add`/`set_results`/`remove` calls — `set_results` targeting a present
job whose result set is still empty, `remove` targeting jobs whose result
set is empty, the pattern of every call site in `model.py` — the memory
accumulator equals the sum of result-set sizes in MB of the
diffusion-kind jobs currently present.  (Unrestricted `remove` breaks the
invariant, see the counterexample.) -/
theorem c1_acc_inv (budget : ℚ) (ops : List QOp) (q' : JobQueue)
    (hv : validOps budget JobQueue.empty ops = true)
    (hok : execOps budget JobQueue.empty ops = .ok q') :
    q'._memory_usage = diffSum q'.entries := by
  have hempty : QueueInv JobQueue.empty := by
    refine ⟨?_, ?_, ?_, ?_⟩ <;> simp [JobQueue.empty, diffSum]
  exact (inv_execOps budget ops JobQueue.empty q' hempty hv hok).2.2.2

theorem c1_acc_inv_witness : c1wq._memory_usage = diffSum c1wq.entries :=
  c1_acc_inv 100 c1wops c1wq
    (by
      norm_num [validOps, opSafeB, noCountedResults, applyOp, JobQueue.empty,
        JobQueue.add, JobQueue.set_results, pruneGo, updResults, mkJob,
        ImageCollection.size, c1wops, b0, mb50])
    (by
      norm_num [execOps, applyOp, JobQueue.empty, JobQueue.add,
        JobQueue.set_results, pruneGo, updResults, mkJob, ImageCollection.size,
        c1wops, c1wq, b0, mb50])

theorem c5_finished_preserves_inv_witness : ResultsInv c5ws'.jobs :=
  c5_finished_preserves_inv 100 c5ws c5wm c5ws' rfl
    (by unfold ResultsInv; decide)
    (by
      norm_num [handle_message, JobQueue.find, JobQueue.set_results,
        JobQueue.notify_finished, JobQueue.set_state, JobQueue.select,
        finishEffect, idTruthy, pruneGo, updResults, updState,
        ImageCollection.size, c5ws, c5ws', c5wm, c5q, c5job, mb50]
      decide)

end AiDiffusion
